import Mathlib

/-!
# Verification of `SyncMapFragmentList` (aeneas, `src/aeneas/syncmap/fragmentlist.py`)

This file gives a shallow embedding of the `SyncMapFragmentList` container and of
the collaborator contract it consumes (`TimeValue`, `TimeInterval`,
`SyncMapFragment` from `aeneas.exacttiming` / `aeneas.syncmap.fragment`, which
are not part of the source tree under verification and are therefore modelled
from the specification).  Time values are exact, so they are embedded as `ℚ`.

Python's in-place mutation is embedded as state passing: every mutating method
becomes a function from the list state to the new list state, paired with an
`Option PyError` describing the exception it raises (the returned state is the
state of the object after the call, whether or not an exception propagated).
-/

/-- Python exceptions raised by the code under verification. -/
inductive PyError where
  | typeError (msg : String)
  | valueError (msg : String)
deriving DecidableEq, Repr

/-- A Python value passed where a `TimeValue` (or `None`) is expected:
either `None`, an actual `TimeValue` (exact number, embedded as `ℚ`),
or a value of some other type. -/
inductive PyTime where
  | pynone
  | timeValue (q : ℚ)
  | other
deriving DecidableEq, Repr

/-- `true` iff the Python value is an instance of `TimeValue`. -/
def PyTime.isTimeValue : PyTime → Bool
  | PyTime.timeValue _ => true
  | _ => false

/-- The `TimeValue` carried by the Python value, if any. -/
def PyTime.toOpt : PyTime → Option ℚ
  | PyTime.timeValue q => some q
  | _ => none

/-- Modelled from the spec: `TimeInterval` from `aeneas.exacttiming` (not in the
source tree): a pair `(begin, end)` of exact time values.  `end` is a reserved
word in Lean, so the field is named `end_`. -/
structure TimeInterval where
  begin : ℚ
  end_ : ℚ
deriving DecidableEq, Repr

namespace TimeInterval

/-- Modelled from the spec: `length = end - begin`. -/
def length (i : TimeInterval) : ℚ := i.end_ - i.begin

/-- Modelled from the spec: an interval is degenerate (a point) iff its length
is zero, i.e. iff `begin = end`. -/
def has_zero_length (i : TimeInterval) : Prop := i.begin = i.end_

instance (i : TimeInterval) : Decidable i.has_zero_length := by
  unfold has_zero_length; infer_instance

/-- Modelled from the spec: `shrink(amount)` moves `begin` forward by `amount`
(the interval donates `amount` of its length from its left edge). -/
def shrink (i : TimeInterval) (amount : ℚ) : TimeInterval :=
  ⟨i.begin + amount, i.end_⟩

/-- Modelled from the spec: `enlarge(amount)` moves `begin` backward by
`amount` (the interval grows by `amount` on its left edge). -/
def enlarge (i : TimeInterval) (amount : ℚ) : TimeInterval :=
  ⟨i.begin - amount, i.end_⟩

/-- Modelled from the spec: `move_end_at(value)` relocates the interval so that
its end lands at `value`, preserving its length (this is the reading forced by
the spec's worked repair examples, where a `MOVE` entry shifts a fragment
without changing its length). -/
def move_end_at (i : TimeInterval) (value : ℚ) : TimeInterval :=
  ⟨value - i.length, value⟩

/-- Modelled from the spec: `is_adjacent_before(other)` holds iff `self.end ==
other.begin`. -/
def is_adjacent_before (i other : TimeInterval) : Prop := i.end_ = other.begin

instance (i other : TimeInterval) : Decidable (i.is_adjacent_before other) := by
  unfold is_adjacent_before; infer_instance

/-- Modelled from the spec: `offset(delta, allow_negative=False,
min_begin_value, max_end_value)` shifts both endpoints by `delta`, clamps them
at zero (negative times disallowed), and, when both list bounds are given,
clamps the result into `[min_begin_value, max_end_value]` without letting the
interval become negative-length. -/
def offset_shift (i : TimeInterval) (delta : ℚ) (min_begin_value max_end_value : Option ℚ) :
    TimeInterval :=
  let b := max (i.begin + delta) 0
  let e := max (i.end_ + delta) 0
  match min_begin_value, max_end_value with
  | some lo, some hi =>
      let b' := min (max b lo) hi
      let e' := min (max e lo) hi
      ⟨b', max e' b'⟩
  | _, _ => ⟨b, e⟩

end TimeInterval

/-- Modelled from the spec: the closed enumeration of qualitative relative
positions of one interval with respect to another (`aeneas.exacttiming`, not in
the source tree).  Naming scheme: the first two letters classify the shapes of
(self, other) as `P`oint or `I`nterval; the remaining letters locate `other`'s
endpoints relative to `self` (`L`ess / `B`egin / `I`nside / `E`nd / `G`reater,
with `C` for coincident in the point cases). -/
inductive RelativePosition where
  | PP_L | PP_C | PP_G
  | PI_LL | PI_LC | PI_CC | PI_CG | PI_GG
  | IP_L | IP_B | IP_I | IP_E | IP_G
  | II_LL | II_LB | II_LI | II_LE | II_LG
  | II_BI | II_BE | II_BG
  | II_II | II_IE | II_IG
  | II_EG | II_GG
deriving DecidableEq, Repr

/-- Modelled from the spec: the pure classifier
`TimeInterval.relative_position_of` (from `aeneas.exacttiming`, not in the
source tree): classify each operand as point (`length == 0`) or interval, then
compare the endpoints of `other` against those of `self` to pick the
sub-category. -/
def TimeInterval.relative_position_of (s o : TimeInterval) : RelativePosition :=
  if s.begin = s.end_ then
    if o.begin = o.end_ then
      if s.begin < o.begin then RelativePosition.PP_L
      else if s.begin = o.begin then RelativePosition.PP_C
      else RelativePosition.PP_G
    else
      if s.begin < o.begin then RelativePosition.PI_LL
      else if s.begin = o.begin then RelativePosition.PI_LC
      else if s.begin < o.end_ then RelativePosition.PI_CC
      else if s.begin = o.end_ then RelativePosition.PI_CG
      else RelativePosition.PI_GG
  else
    if o.begin = o.end_ then
      if o.begin < s.begin then RelativePosition.IP_L
      else if o.begin = s.begin then RelativePosition.IP_B
      else if o.begin < s.end_ then RelativePosition.IP_I
      else if o.begin = s.end_ then RelativePosition.IP_E
      else RelativePosition.IP_G
    else
      if o.end_ < s.begin then RelativePosition.II_LL
      else if o.end_ = s.begin then RelativePosition.II_LB
      else if o.begin < s.begin then
        if o.end_ < s.end_ then RelativePosition.II_LI
        else if o.end_ = s.end_ then RelativePosition.II_LE
        else RelativePosition.II_LG
      else if o.begin = s.begin then
        if o.end_ < s.end_ then RelativePosition.II_BI
        else if o.end_ = s.end_ then RelativePosition.II_BE
        else RelativePosition.II_BG
      else if o.begin < s.end_ then
        if o.end_ < s.end_ then RelativePosition.II_II
        else if o.end_ = s.end_ then RelativePosition.II_IE
        else RelativePosition.II_IG
      else if o.begin = s.end_ then RelativePosition.II_EG
      else RelativePosition.II_GG

/-- Modelled from the spec: `SyncMapFragment` (from `aeneas.syncmap.fragment`,
not in the source tree): a time interval plus an opaque payload. -/
structure SyncMapFragment where
  interval : TimeInterval
  payload : ℕ
deriving DecidableEq, Repr

instance : Inhabited SyncMapFragment := ⟨⟨⟨0, 0⟩, 0⟩⟩

/-- Modelled from the spec: the strict total (pre)order on intervals used for
fragment comparison: by `begin`, then by `end` for ties. -/
def intervalLt (a b : TimeInterval) : Prop :=
  a.begin < b.begin ∨ (a.begin = b.begin ∧ a.end_ < b.end_)

/-- The non-strict companion of `intervalLt`. -/
def intervalLe (a b : TimeInterval) : Prop :=
  a.begin < b.begin ∨ (a.begin = b.begin ∧ a.end_ ≤ b.end_)

instance (a b : TimeInterval) : Decidable (intervalLt a b) := by
  unfold intervalLt; infer_instance

instance (a b : TimeInterval) : Decidable (intervalLe a b) := by
  unfold intervalLe; infer_instance

/-- Modelled from the spec: the total order on fragments is the order of their
intervals (`SyncMapFragment.__lt__`). -/
def fragLt (f g : SyncMapFragment) : Prop := intervalLt f.interval g.interval

/-- Non-strict fragment comparison. -/
def fragLe (f g : SyncMapFragment) : Prop := intervalLe f.interval g.interval

instance (f g : SyncMapFragment) : Decidable (fragLt f g) := by
  unfold fragLt; infer_instance

instance (f g : SyncMapFragment) : Decidable (fragLe f g) := by
  unfold fragLe; infer_instance

theorem fragLe_refl (f : SyncMapFragment) : fragLe f f := by
  unfold fragLe intervalLe; right; exact ⟨rfl, le_refl _⟩

theorem fragLe_of_not_fragLt {f g : SyncMapFragment} (h : ¬ fragLt f g) : fragLe g f := by
  unfold fragLt intervalLt at h
  unfold fragLe intervalLe
  push_neg at h
  rcases lt_trichotomy g.interval.begin f.interval.begin with h1 | h1 | h1
  · exact Or.inl h1
  · exact Or.inr ⟨h1, le_of_not_lt fun hc => (h.2 h1.symm).not_lt hc⟩
  · exact absurd h1 (not_lt_of_ge h.1)

theorem fragLe_of_fragLt {f g : SyncMapFragment} (h : fragLt f g) : fragLe f g := by
  unfold fragLt intervalLt at h
  unfold fragLe intervalLe
  rcases h with h | ⟨h1, h2⟩
  · exact Or.inl h
  · exact Or.inr ⟨h1, le_of_lt h2⟩

theorem fragLt_of_fragLt_of_fragLe {f g h : SyncMapFragment}
    (h1 : fragLt f g) (h2 : fragLe g h) : fragLt f h := by
  unfold fragLt intervalLt at h1 ⊢
  unfold fragLe intervalLe at h2
  rcases h1 with h1 | ⟨ha, hb⟩ <;> rcases h2 with h2 | ⟨hc, hd⟩
  · exact Or.inl (h1.trans h2)
  · exact Or.inl (hc ▸ h1)
  · exact Or.inl (ha ▸ h2)
  · exact Or.inr ⟨ha.trans hc, lt_of_lt_of_le hb hd⟩

theorem fragLt_of_fragLe_of_fragLt {f g h : SyncMapFragment}
    (h1 : fragLe f g) (h2 : fragLt g h) : fragLt f h := by
  unfold fragLe intervalLe at h1
  unfold fragLt intervalLt at h2 ⊢
  rcases h1 with h1 | ⟨ha, hb⟩ <;> rcases h2 with h2 | ⟨hc, hd⟩
  · exact Or.inl (h1.trans h2)
  · exact Or.inl (hc ▸ h1)
  · exact Or.inl (ha ▸ h2)
  · exact Or.inr ⟨ha.trans hc, lt_of_le_of_lt hb hd⟩

theorem fragLe_trans {f g h : SyncMapFragment}
    (h1 : fragLe f g) (h2 : fragLe g h) : fragLe f h := by
  unfold fragLe intervalLe at h1 h2 ⊢
  rcases h1 with h1 | ⟨ha, hb⟩ <;> rcases h2 with h2 | ⟨hc, hd⟩
  · exact Or.inl (h1.trans h2)
  · exact Or.inl (hc ▸ h1)
  · exact Or.inl (ha ▸ h2)
  · exact Or.inr ⟨ha.trans hc, hb.trans hd⟩

/-- The state of a `SyncMapFragmentList` (`src/aeneas/syncmap/fragmentlist.py`):
optional `begin`/`end` bounds, the private `__fragments` sequence and the
private `__sorted` flag. -/
structure SyncMapFragmentList where
  begin : Option ℚ
  end_ : Option ℚ
  sorted : Bool
  fragments : List SyncMapFragment
deriving DecidableEq, Repr

namespace SyncMapFragmentList

/-- `SyncMapFragmentList.ALLOWED_POSITIONS` (from the source): the 15 relative
positions a pair of intervals in the list may have. -/
def ALLOWED_POSITIONS : List RelativePosition :=
  [RelativePosition.PP_L,
   RelativePosition.PP_C,
   RelativePosition.PP_G,
   RelativePosition.PI_LL,
   RelativePosition.PI_LC,
   RelativePosition.PI_CG,
   RelativePosition.PI_GG,
   RelativePosition.IP_L,
   RelativePosition.IP_B,
   RelativePosition.IP_E,
   RelativePosition.IP_G,
   RelativePosition.II_LL,
   RelativePosition.II_LB,
   RelativePosition.II_EG,
   RelativePosition.II_GG]

/-- `SyncMapFragmentList.__init__`: validate the optional `begin`/`end`
arguments (TypeError for wrong types, ValueError for a negative `begin` or
`begin > end`) and produce an empty list with the sorted flag set. -/
def init (b e : PyTime) : Except PyError SyncMapFragmentList :=
  match b, e with
  | PyTime.other, _ => Except.error (PyError.typeError "begin is not an instance of TimeValue")
  | _, PyTime.other => Except.error (PyError.typeError "end is not an instance of TimeValue")
  | PyTime.timeValue q, e' =>
      if q < 0 then Except.error (PyError.valueError "begin is negative")
      else
        match e' with
        | PyTime.timeValue r =>
            if r < q then Except.error (PyError.valueError "begin is bigger than end")
            else Except.ok ⟨some q, some r, true, []⟩
        | _ => Except.ok ⟨some q, none, true, []⟩
  | PyTime.pynone, e' => Except.ok ⟨none, e'.toOpt, true, []⟩

/-- `SyncMapFragmentList._check_boundaries`: the fragment's interval must lie
within the list bounds (the `isinstance` checks of the source are vacuous here
because the embedding is typed). -/
def _check_boundaries (l : SyncMapFragmentList) (f : SyncMapFragment) : Option PyError :=
  match l.begin, l.end_ with
  | some b, some e =>
      if f.interval.begin < b then some (PyError.valueError "interval.begin is before self.begin")
      else if e < f.interval.end_ then some (PyError.valueError "interval.end is after self.end")
      else none
  | some b, none =>
      if f.interval.begin < b then some (PyError.valueError "interval.begin is before self.begin")
      else none
  | none, some e =>
      if e < f.interval.end_ then some (PyError.valueError "interval.end is after self.end")
      else none
  | none, none => none

/-- The relative position of adjacent fragments `a`, `b` is allowed
(`a.interval.relative_position_of(b.interval) in ALLOWED_POSITIONS`). -/
def allowedAdj (a b : SyncMapFragment) : Prop :=
  a.interval.relative_position_of b.interval ∈ ALLOWED_POSITIONS

instance (a b : SyncMapFragment) : Decidable (allowedAdj a b) := by
  unfold allowedAdj; infer_instance

/-- `SyncMapFragmentList._check_overlap`: full scan of the existing fragments;
an error iff some existing fragment's relative position with respect to the new
one is outside the allowed set. -/
def _check_overlap (l : SyncMapFragmentList) (f : SyncMapFragment) : Option PyError :=
  if l.fragments.all fun e => decide (allowedAdj e f) then none
  else some (PyError.valueError "interval overlaps another already present interval")

/-- One step of Python's `bisect.bisect_right` binary search (comparison by
`__lt__`, i.e. `fragLt`), with explicit fuel; `a.length + 1` fuel always
suffices since the span `hi - lo` shrinks at every step. -/
def bisect_right_loop (x : SyncMapFragment) (a : List SyncMapFragment) :
    ℕ → ℕ → ℕ → ℕ
  | 0, lo, _ => lo
  | fuel + 1, lo, hi =>
      if lo < hi then
        let mid := (lo + hi) / 2
        if fragLt x (a.getD mid default) then bisect_right_loop x a fuel lo mid
        else bisect_right_loop x a fuel (mid + 1) hi
      else lo

/-- Python's `bisect.bisect_right x a` over the whole list. -/
def bisect_right (x : SyncMapFragment) (a : List SyncMapFragment) : ℕ :=
  bisect_right_loop x a (a.length + 1) 0 a.length

/-- Python's `bisect.insort(a, x)`: insert `x` at the `bisect_right` position
(to the right of any equal-ordered entries). -/
def insort (x : SyncMapFragment) (a : List SyncMapFragment) : List SyncMapFragment :=
  a.take (bisect_right x a) ++ x :: a.drop (bisect_right x a)

/-- `SyncMapFragmentList.add(fragment, sort)`: boundary check, then either a
sorted insert (flag must be set; overlap check; `bisect.insort`) or a plain
append that clears the sorted flag. -/
def add (l : SyncMapFragmentList) (fragment : SyncMapFragment) (sort : Bool) :
    Option PyError × SyncMapFragmentList :=
  match _check_boundaries l fragment with
  | some err => (some err, l)
  | none =>
      if sort then
        if l.sorted then
          match _check_overlap l fragment with
          | some err => (some err, l)
          | none => (none, { l with fragments := insort fragment l.fragments })
        else
          (some (PyError.valueError "Unable to add with sort=True if the list is not guaranteed sorted"), l)
      else
        (none, { l with fragments := l.fragments ++ [fragment], sorted := false })

/-- Stable insertion of `x` into an accumulator, passing over every element not
greater than `x` (comparison by `__lt__` only, as Python's sort does). -/
def stable_insert (x : SyncMapFragment) : List SyncMapFragment → List SyncMapFragment
  | [] => [x]
  | a :: t => if fragLt x a then x :: a :: t else a :: stable_insert x t

/-- Python's built-in `sorted` (Timsort) on fragments: a stable sort by
`fragLt`.  Any two stable sorts by the same total preorder coincide, so a
left-to-right stable insertion sort is an exact model. -/
def py_sorted (l : List SyncMapFragment) : List SyncMapFragment :=
  l.foldl (fun acc x => stable_insert x acc) []

/-- The adjacent-pair validation loop of `SyncMapFragmentList.sort`:
`true` iff every adjacent pair's relative position is allowed. -/
def pairs_allowed : List SyncMapFragment → Bool
  | [] => true
  | [_] => true
  | a :: b :: t => decide (allowedAdj a b) && pairs_allowed (b :: t)

/-- `SyncMapFragmentList.sort`: no-op when the flag is already set; otherwise
sort the fragments in place, then validate every adjacent pair, raising (with
the fragments left sorted and the flag still clear) on a violation, and set the
flag on success. -/
def sort (l : SyncMapFragmentList) : Option PyError × SyncMapFragmentList :=
  if l.sorted then (none, l)
  else
    let fs := py_sorted l.fragments
    if pairs_allowed fs then (none, { l with fragments := fs, sorted := true })
    else
      (some (PyError.valueError "The list contains two time intervals overlapping in a forbidden way"),
       { l with fragments := fs })

/-- `SyncMapFragmentList.is_guaranteed_sorted`. -/
def is_guaranteed_sorted (l : SyncMapFragmentList) : Bool := l.sorted

/-- `SyncMapFragmentList.move_end(index, value)`: silently return unless
`value` is within the list bounds, the index pair is in range, `value` does not
exceed the next fragment's end, and the two fragments are boundary-adjacent;
otherwise write `value` into both sides of the shared boundary.  The source
compares `value` against `self.begin` and `self.end` directly, so the guard is
only meaningful when both bounds are set; with an unset bound the model treats
the guard as failing (silent return). -/
def move_end (l : SyncMapFragmentList) (index : ℤ) (value : ℚ) : SyncMapFragmentList :=
  match l.begin, l.end_ with
  | some b, some e =>
      if value < b ∨ e < value ∨ index < 0 ∨ (index + 1 : ℤ) ≥ (l.fragments.length : ℤ) then l
      else
        let i := index.toNat
        let current_fragment := l.fragments.getD i default
        let next_fragment := l.fragments.getD (i + 1) default
        if next_fragment.interval.end_ < value ∨
            ¬ current_fragment.interval.is_adjacent_before next_fragment.interval then l
        else
          let fs := l.fragments.set i ⟨⟨current_fragment.interval.begin, value⟩, current_fragment.payload⟩
          let fs := fs.set (i + 1) ⟨⟨value, next_fragment.interval.end_⟩, next_fragment.payload⟩
          { l with fragments := fs }
  | _, _ => l

/-- `SyncMapFragmentList.offset(offset)`: shift every fragment's interval,
clamped to the list bounds.  The `TypeError` for a non-`TimeValue` argument is
raised by the first `TimeInterval.offset` call, so an empty list raises
nothing. -/
def offset (l : SyncMapFragmentList) (off : PyTime) : Option PyError × SyncMapFragmentList :=
  match off with
  | PyTime.timeValue d =>
      (none,
       { l with fragments :=
           l.fragments.map fun f =>
             ⟨f.interval.offset_shift d l.begin l.end_, f.payload⟩ })
  | _ =>
      if l.fragments.isEmpty then (none, l)
      else (some (PyError.typeError "offset is not an instance of TimeValue"), l)

/-- A pending boundary move recorded by the zero-length repair scan:
either enlarge the fragment by the given amount or just shift it. -/
inductive FixMove where
  | ENLARGE (amount : ℚ)
  | MOVE
deriving DecidableEq, Repr

/-- `x + slack <= self.end`, with an unset list end treated as an unmet
condition (the source compares against `self.end` directly). -/
def le_opt (x : ℚ) : Option ℚ → Prop
  | some e => x ≤ e
  | none => False

instance (x : ℚ) (o : Option ℚ) : Decidable (le_opt x o) := by
  cases o <;> (unfold le_opt; infer_instance)

/-- The inner `while` of `fix_zero_length_intervals`: walk forward from `j`
while the fragment there is shorter than the pending `slack`, recording an
`ENLARGE` (and growing the slack) for zero-length fragments and a `MOVE`
otherwise. -/
def fix_scan (fs : List SyncMapFragment) (off : ℚ) (maxI : ℕ) :
    ℕ → ℕ → ℚ → List (ℕ × FixMove) → ℕ × ℚ × List (ℕ × FixMove)
  | 0, j, slack, moves => (j, slack, moves)
  | fuel + 1, j, slack, moves =>
      if j < maxI ∧ (fs.getD j default).interval.length < slack then
        if (fs.getD j default).interval.has_zero_length then
          fix_scan fs off maxI fuel (j + 1) (slack + off) (moves ++ [(j, FixMove.ENLARGE off)])
        else
          fix_scan fs off maxI fuel (j + 1) slack (moves ++ [(j, FixMove.MOVE)])
      else (j, slack, moves)

/-- The backward replay of `fix_zero_length_intervals`: for each recorded move
(in reverse order) relocate the fragment's end to the running time, enlarge it
if requested, and continue from its new begin. -/
def replay_moves : List (ℕ × FixMove) → ℚ → List SyncMapFragment → List SyncMapFragment
  | [], _, fs => fs
  | (idx, mv) :: rest, t, fs =>
      let f := fs.getD idx default
      let iv := f.interval.move_end_at t
      let iv :=
        match mv with
        | FixMove.ENLARGE a => iv.enlarge a
        | FixMove.MOVE => iv
      replay_moves rest iv.begin (fs.set idx ⟨iv, f.payload⟩)

/-- The outer `while` of `fix_zero_length_intervals`: scan for zero-length
fragments, build the donor chain, decide feasibility (extend the right edge
when the chain reaches `maxI`, shrink the donor otherwise, silently give up
when neither works), replay the moves backward, and resume after the chain. -/
def fix_loop (off : ℚ) (maxI : ℕ) (lend : Option ℚ) :
    ℕ → ℕ → List SyncMapFragment → List SyncMapFragment
  | 0, _, fs => fs
  | fuel + 1, i, fs =>
      if i < maxI then
        if (fs.getD i default).interval.has_zero_length then
          let scanned := fix_scan fs off maxI maxI (i + 1) off [(i, FixMove.ENLARGE off)]
          let j := scanned.1
          let slack := scanned.2.1
          let moves := scanned.2.2
          if j = maxI ∧ le_opt ((fs.getD (j - 1) default).interval.end_ + slack) lend then
            let current_time := (fs.getD (j - 1) default).interval.end_ + slack
            fix_loop off maxI lend fuel j (replay_moves moves.reverse current_time fs)
          else if j < maxI then
            let donor := fs.getD j default
            let fs' := fs.set j ⟨donor.interval.shrink slack, donor.payload⟩
            let current_time := (fs'.getD j default).interval.begin
            fix_loop off maxI lend fuel j (replay_moves moves.reverse current_time fs')
          else fix_loop off maxI lend fuel j fs
        else fix_loop off maxI lend fuel (i + 1) fs
      else fs

/-- `SyncMapFragmentList.fix_zero_length_intervals(offset, min_index,
max_index)`: the index arguments are resolved with Python's `or` (`min_index or
0`, `max_index or len(self)`), so an explicit falsy `0` is replaced by the
default exactly like `None`. -/
def fix_zero_length_intervals (l : SyncMapFragmentList) (off : ℚ)
    (min_index max_index : Option ℕ) : SyncMapFragmentList :=
  let minI := match min_index with
    | none => 0
    | some n => if n = 0 then 0 else n
  let maxI := match max_index with
    | none => l.fragments.length
    | some n => if n = 0 then l.fragments.length else n
  { l with fragments := fix_loop off maxI l.end_ (maxI + 1) minI l.fragments }

end SyncMapFragmentList

/-! ## The allowed-position characterization

For valid intervals (`begin ≤ end`), membership of the classifier's result in
`ALLOWED_POSITIONS` is exactly the geometric statement that the two intervals
are disjoint except for possibly sharing a single boundary point, i.e.
`self.end ≤ other.begin ∨ other.end ≤ self.begin`.  This is symmetric in the
two operands. -/

set_option maxHeartbeats 2000000 in
theorem relative_position_allowed_iff {s o : TimeInterval}
    (hs : s.begin ≤ s.end_) (ho : o.begin ≤ o.end_) :
    s.relative_position_of o ∈ SyncMapFragmentList.ALLOWED_POSITIONS ↔
      (s.end_ ≤ o.begin ∨ o.end_ ≤ s.begin) := by
  unfold TimeInterval.relative_position_of
  split_ifs <;> simp [SyncMapFragmentList.ALLOWED_POSITIONS] <;>
    first
      | linarith
      | (left; linarith)
      | (right; linarith)
      | (constructor <;>
          first
            | linarith
            | (apply lt_of_le_of_ne (by linarith)
               intro heq
               simp_all))

theorem allowedAdj_comm {f g : SyncMapFragment}
    (hf : f.interval.begin ≤ f.interval.end_) (hg : g.interval.begin ≤ g.interval.end_) :
    SyncMapFragmentList.allowedAdj f g ↔ SyncMapFragmentList.allowedAdj g f := by
  unfold SyncMapFragmentList.allowedAdj
  rw [relative_position_allowed_iff hf hg, relative_position_allowed_iff hg hf]
  exact or_comm

/-! ## Specification of the `bisect.insort` insertion -/

open SyncMapFragmentList

theorem sorted_rel_of_getElem {a : List SyncMapFragment} (h : a.Sorted fragLe)
    {i j : ℕ} (hi : i < a.length) (hj : j < a.length) (hij : i ≤ j) :
    fragLe a[i] a[j] := by
  rcases eq_or_lt_of_le hij with rfl | hlt
  · exact fragLe_refl _
  · exact List.pairwise_iff_getElem.mp h i j hi hj hlt

theorem bisect_right_loop_spec (x : SyncMapFragment) (a : List SyncMapFragment)
    (hsorted : a.Sorted fragLe) :
    ∀ (fuel lo hi : ℕ), lo ≤ hi → hi ≤ a.length → hi - lo < fuel →
      (∀ i (h : i < a.length), i < lo → ¬ fragLt x a[i]) →
      (∀ i (h : i < a.length), hi ≤ i → fragLt x a[i]) →
      lo ≤ bisect_right_loop x a fuel lo hi ∧
      bisect_right_loop x a fuel lo hi ≤ hi ∧
      (∀ i (h : i < a.length), i < bisect_right_loop x a fuel lo hi → ¬ fragLt x a[i]) ∧
      (∀ i (h : i < a.length), bisect_right_loop x a fuel lo hi ≤ i → fragLt x a[i]) := by
  intro fuel
  induction fuel with
  | zero => intro lo hi h1 h2 h3 _ _; omega
  | succ fuel ih =>
    intro lo hi hlohi hhi hfuel hlow hhigh
    by_cases hlt : lo < hi
    · have hmidlt : (lo + hi) / 2 < hi := by omega
      have hmidge : lo ≤ (lo + hi) / 2 := by omega
      have hmidlen : (lo + hi) / 2 < a.length := by omega
      have hget : a.getD ((lo + hi) / 2) default = a[(lo + hi) / 2] :=
        List.getD_eq_getElem a default hmidlen
      by_cases hx : fragLt x (a.getD ((lo + hi) / 2) default)
      · have hstep : bisect_right_loop x a (fuel + 1) lo hi =
            bisect_right_loop x a fuel lo ((lo + hi) / 2) := by
          simp only [bisect_right_loop, if_pos hlt, if_pos hx]
        rw [hstep]
        have hx' : fragLt x a[(lo + hi) / 2] := hget ▸ hx
        have hres := ih lo ((lo + hi) / 2) hmidge (by omega) (by omega) hlow ?_
        · exact ⟨hres.1, le_trans hres.2.1 (le_of_lt hmidlt), hres.2.2⟩
        · intro i h hmi
          exact fragLt_of_fragLt_of_fragLe hx' (sorted_rel_of_getElem hsorted hmidlen h hmi)
      · have hstep : bisect_right_loop x a (fuel + 1) lo hi =
            bisect_right_loop x a fuel ((lo + hi) / 2 + 1) hi := by
          simp only [bisect_right_loop, if_pos hlt, if_neg hx]
        rw [hstep]
        have hx' : ¬ fragLt x a[(lo + hi) / 2] := fun hc => hx (hget ▸ hc)
        have hres := ih ((lo + hi) / 2 + 1) hi (by omega) hhi (by omega) ?_ hhigh
        · exact ⟨le_trans hmidge (le_trans (Nat.le_succ _) hres.1), hres.2⟩
        · intro i h hi1
          by_cases hilo : i < lo
          · exact hlow i h hilo
          · intro hc
            exact hx'
              (fragLt_of_fragLt_of_fragLe hc (sorted_rel_of_getElem hsorted h hmidlen (by omega)))
    · have hstep : bisect_right_loop x a (fuel + 1) lo hi = lo := by
        simp only [bisect_right_loop, if_neg hlt]
      rw [hstep]
      exact ⟨le_refl _, hlohi, fun i h hi1 => hlow i h hi1,
        fun i h hi1 => hhigh i h (by omega)⟩

theorem bisect_right_spec (x : SyncMapFragment) (a : List SyncMapFragment)
    (hsorted : a.Sorted fragLe) :
    bisect_right x a ≤ a.length ∧
    (∀ i (h : i < a.length), i < bisect_right x a → ¬ fragLt x a[i]) ∧
    (∀ i (h : i < a.length), bisect_right x a ≤ i → fragLt x a[i]) := by
  have h := bisect_right_loop_spec x a hsorted (a.length + 1) 0 a.length
    (Nat.zero_le _) (le_refl _) (by omega)
    (fun i h hi => absurd hi (by omega))
    (fun i h hi => absurd h (by omega))
  exact ⟨h.2.1, h.2.2⟩

theorem sorted_insert_at (x : SyncMapFragment) :
    ∀ (a : List SyncMapFragment) (p : ℕ), p ≤ a.length →
      a.Sorted fragLe →
      (∀ i (h : i < a.length), i < p → ¬ fragLt x a[i]) →
      (∀ i (h : i < a.length), p ≤ i → fragLt x a[i]) →
      (a.take p ++ x :: a.drop p).Sorted fragLe := by
  intro a
  induction a with
  | nil =>
    intro p hp _ _ _
    have hp0 : p = 0 := by simpa using hp
    subst hp0
    simp [List.Sorted]
  | cons a0 t ih =>
    intro p hp hsorted hlow hhigh
    cases p with
    | zero =>
      simp only [List.take_zero, List.drop_zero, List.nil_append]
      refine List.sorted_cons.mpr ⟨?_, hsorted⟩
      intro b hb
      obtain ⟨i, hi, rfl⟩ := List.mem_iff_getElem.mp hb
      exact fragLe_of_fragLt (hhigh i hi (Nat.zero_le _))
    | succ k =>
      simp only [List.take_succ_cons, List.drop_succ_cons, List.cons_append]
      have hsorted' := List.sorted_cons.mp hsorted
      refine List.sorted_cons.mpr ⟨?_, ?_⟩
      · intro b hb
        rcases List.mem_append.mp hb with hb1 | hb2
        · exact hsorted'.1 b (List.mem_of_mem_take hb1)
        · rcases List.mem_cons.mp hb2 with rfl | hb3
          · exact fragLe_of_not_fragLt (hlow 0 (by simp) (Nat.succ_pos _))
          · exact hsorted'.1 b (List.mem_of_mem_drop hb3)
      · refine ih k (by simpa using hp) hsorted'.2 ?_ ?_
        · intro i h hik
          have := hlow (i + 1) (by simpa using Nat.succ_lt_succ h) (Nat.succ_lt_succ hik)
          simpa using this
        · intro i h hik
          have := hhigh (i + 1) (by simpa using Nat.succ_lt_succ h) (Nat.succ_le_succ hik)
          simpa using this

theorem chain_insert_at (x : SyncMapFragment) :
    ∀ (a : List SyncMapFragment) (p : ℕ), p ≤ a.length →
      a.Chain' allowedAdj →
      (∀ e ∈ a, allowedAdj e x) →
      (∀ e ∈ a, allowedAdj x e) →
      (a.take p ++ x :: a.drop p).Chain' allowedAdj := by
  intro a
  induction a with
  | nil =>
    intro p hp _ _ _
    have hp0 : p = 0 := by simpa using hp
    subst hp0
    simp
  | cons a0 t ih =>
    intro p hp hchain hleft hright
    cases p with
    | zero =>
      simp only [List.take_zero, List.drop_zero, List.nil_append]
      refine List.chain'_cons'.mpr ⟨?_, hchain⟩
      intro b hb
      simp only [List.head?_cons, Option.mem_def, Option.some.injEq] at hb
      exact hb ▸ hright a0 (List.mem_cons_self a0 t)
    | succ k =>
      simp only [List.take_succ_cons, List.drop_succ_cons, List.cons_append]
      refine List.chain'_cons'.mpr ⟨?_, ?_⟩
      · intro b hb
        cases t with
        | nil =>
          have hk : k = 0 := by simpa using hp
          subst hk
          simp only [List.take_nil, List.drop_nil, List.nil_append, List.head?_cons,
            Option.mem_def, Option.some.injEq] at hb
          exact hb ▸ hleft a0 (List.mem_cons_self a0 [])
        | cons t0 t' =>
          cases k with
          | zero =>
            simp only [List.take_zero, List.drop_zero, List.nil_append, List.head?_cons,
              Option.mem_def, Option.some.injEq] at hb
            exact hb ▸ hleft a0 (List.mem_cons_self a0 (t0 :: t'))
          | succ k' =>
            simp only [List.take_succ_cons, List.cons_append, List.head?_cons,
              Option.mem_def, Option.some.injEq] at hb
            exact hb ▸ (List.chain'_cons.mp hchain).1
      · refine ih k (by simpa using hp) ?_ ?_ ?_
        · exact List.Chain'.tail hchain
        · intro e he; exact hleft e (List.mem_cons_of_mem a0 he)
        · intro e he; exact hright e (List.mem_cons_of_mem a0 he)

/-! ## Helper lemmas about `add` and `_check_overlap` -/

theorem check_overlap_none_iff (l : SyncMapFragmentList) (f : SyncMapFragment) :
    _check_overlap l f = none ↔ ∀ e ∈ l.fragments, allowedAdj e f := by
  unfold _check_overlap
  cases hall : l.fragments.all fun e => decide (allowedAdj e f)
  · simp only [Bool.false_eq_true, if_false]
    constructor
    · intro h; exact absurd h (by simp)
    · intro hforall
      exfalso
      obtain ⟨e, he, hne⟩ := List.all_eq_false.mp hall
      exact hne (decide_eq_true (hforall e he))
  · simp only [if_true]
    constructor
    · intro _ e he
      exact of_decide_eq_true (List.all_eq_true.mp hall e he)
    · intro _; trivial

theorem add_sorted_success (l : SyncMapFragmentList) (f : SyncMapFragment)
    (hflag : l.sorted = true) (hb : _check_boundaries l f = none)
    (ho : _check_overlap l f = none) :
    add l f true = (none, { l with fragments := insort f l.fragments }) := by
  simp [add, hb, hflag, ho]

theorem add_sorted_success_inv (l : SyncMapFragmentList) (f : SyncMapFragment)
    (h : (add l f true).1 = none) :
    _check_boundaries l f = none ∧ l.sorted = true ∧ _check_overlap l f = none ∧
    (add l f true).2 = { l with fragments := insort f l.fragments } := by
  cases hb : _check_boundaries l f with
  | some err => simp [add, hb] at h
  | none =>
    cases hflag : l.sorted with
    | false => simp [add, hb, hflag] at h
    | true =>
      cases ho : _check_overlap l f with
      | some err => simp [add, hb, hflag, ho] at h
      | none => exact ⟨rfl, rfl, rfl, by simp [add, hb, hflag, ho]⟩

/-! ## Claims -/

/-- C1 (corrected): for every list whose fragments are in ascending fragment
order with every adjacent pair's relative position allowed, whose sorted flag
is set, and whose intervals are valid, any fragment `f` with a valid interval
for which `add(f, sort=True)` returns without error leaves the fragments in
ascending order with every adjacent pair's relative position in the allowed
set.  (The claim's original hypothesis — the sorted flag alone — is not
enough: `__setitem__` can corrupt a flagged list, see the counterexample.) -/
theorem C1_add_sorted_invariants (l : SyncMapFragmentList) (f : SyncMapFragment)
    (hflag : l.sorted = true)
    (hsorted : l.fragments.Sorted fragLe)
    (hchain : l.fragments.Chain' allowedAdj)
    (hvalid : ∀ g ∈ l.fragments, g.interval.begin ≤ g.interval.end_)
    (hfvalid : f.interval.begin ≤ f.interval.end_)
    (hok : (add l f true).1 = none) :
    (add l f true).2.fragments.Sorted fragLe ∧
    (add l f true).2.fragments.Chain' allowedAdj := by
  obtain ⟨hb, _, ho, hres⟩ := add_sorted_success_inv l f hok
  rw [hres]
  have hover : ∀ e ∈ l.fragments, allowedAdj e f := (check_overlap_none_iff l f).mp ho
  have hoverflip : ∀ e ∈ l.fragments, allowedAdj f e := fun e he =>
    (allowedAdj_comm (hvalid e he) hfvalid).mp (hover e he)
  have hspec := bisect_right_spec f l.fragments hsorted
  constructor
  · exact sorted_insert_at f l.fragments (bisect_right f l.fragments)
      hspec.1 hsorted hspec.2.1 hspec.2.2
  · exact chain_insert_at f l.fragments (bisect_right f l.fragments)
      hspec.1 hchain hover hoverflip

/-- C1 counterexample: a list state with the sorted flag set but unsorted
fragments (reachable through `__setitem__`, which performs no checks and does
not clear the flag): `add(f, sort=True)` returns without error, yet the
resulting fragments sequence is not in ascending order, refuting the claim as
stated (whose only list hypothesis is the sorted flag). -/
theorem C1_counterexample :
    (add ⟨some 0, none, true, [⟨⟨10, 12⟩, 0⟩, ⟨⟨5, 6⟩, 1⟩]⟩ ⟨⟨0, 1⟩, 2⟩ true).1 = none ∧
    ¬ ((add ⟨some 0, none, true, [⟨⟨10, 12⟩, 0⟩, ⟨⟨5, 6⟩, 1⟩]⟩ ⟨⟨0, 1⟩, 2⟩ true).2.fragments.Sorted fragLe) := by
  decide

/-- C1 witness: adding `[2,4)` with `sort=True` to the well-formed flagged
list containing `[0,2)` succeeds and preserves both invariants. -/
theorem C1_witness :
    (add ⟨some 0, some 10, true, [⟨⟨0, 2⟩, 0⟩]⟩ ⟨⟨2, 4⟩, 1⟩ true).2.fragments.Sorted fragLe ∧
    (add ⟨some 0, some 10, true, [⟨⟨0, 2⟩, 0⟩]⟩ ⟨⟨2, 4⟩, 1⟩ true).2.fragments.Chain' allowedAdj :=
  C1_add_sorted_invariants ⟨some 0, some 10, true, [⟨⟨0, 2⟩, 0⟩]⟩ ⟨⟨2, 4⟩, 1⟩
    (by decide) (by decide) (by simp) (by decide) (by decide) (by decide)

/-- C2 (confirmed): on a sorted flagged list with valid in-bounds fragments,
`add(f, sort=True)` with an in-bounds valid `f` raises the overlap
`ValueError` whenever `f`'s interval has a positive-length intersection with
some existing fragment's interval, and returns without error whenever `f`'s
interval is disjoint from every existing fragment's interval except possibly
for sharing a single boundary point. -/
theorem C2_add_overlap_rejection (l : SyncMapFragmentList) (f : SyncMapFragment)
    (hflag : l.sorted = true)
    (hsorted : l.fragments.Sorted fragLe)
    (hvalid : ∀ g ∈ l.fragments, g.interval.begin ≤ g.interval.end_)
    (hfvalid : f.interval.begin ≤ f.interval.end_)
    (hbounds : _check_boundaries l f = none) :
    ((∃ g ∈ l.fragments,
        max g.interval.begin f.interval.begin < min g.interval.end_ f.interval.end_) →
      (add l f true).1 = some (PyError.valueError "interval overlaps another already present interval")) ∧
    ((∀ g ∈ l.fragments, f.interval.end_ ≤ g.interval.begin ∨ g.interval.end_ ≤ f.interval.begin) →
      (add l f true).1 = none) := by
  constructor
  · rintro ⟨g, hg, hpos⟩
    have hnotallowed : ¬ allowedAdj g f := by
      unfold allowedAdj
      rw [relative_position_allowed_iff (hvalid g hg) hfvalid]
      push_neg
      have h1 := le_max_left g.interval.begin f.interval.begin
      have h2 := le_max_right g.interval.begin f.interval.begin
      have h3 := min_le_left g.interval.end_ f.interval.end_
      have h4 := min_le_right g.interval.end_ f.interval.end_
      exact ⟨by linarith, by linarith⟩
    have hall : l.fragments.all (fun e => decide (allowedAdj e f)) = false :=
      List.all_eq_false.mpr ⟨g, hg, by simpa using hnotallowed⟩
    have hover : _check_overlap l f =
        some (PyError.valueError "interval overlaps another already present interval") := by
      unfold _check_overlap
      rw [hall]
      simp
    simp [add, hbounds, hflag, hover]
  · intro hall
    have ho : _check_overlap l f = none := by
      refine (check_overlap_none_iff l f).mpr ?_
      intro e he
      unfold allowedAdj
      rw [relative_position_allowed_iff (hvalid e he) hfvalid]
      rcases hall e he with h | h
      · exact Or.inr h
      · exact Or.inl h
    simp [add, hbounds, hflag, ho]

/-- C2 witness: with the list containing `[0,2)`, adding `[1,3)` (positive
overlap) raises the overlap `ValueError`, while adding `[2,4)` (touching at
the single point `2`) succeeds. -/
theorem C2_witness :
    (add ⟨some 0, some 10, true, [⟨⟨0, 2⟩, 0⟩]⟩ ⟨⟨1, 3⟩, 1⟩ true).1 =
      some (PyError.valueError "interval overlaps another already present interval") ∧
    (add ⟨some 0, some 10, true, [⟨⟨0, 2⟩, 0⟩]⟩ ⟨⟨2, 4⟩, 1⟩ true).1 = none := by
  constructor
  · exact (C2_add_overlap_rejection ⟨some 0, some 10, true, [⟨⟨0, 2⟩, 0⟩]⟩ ⟨⟨1, 3⟩, 1⟩
      (by decide) (by decide) (by decide) (by decide) (by decide)).1 (by decide)
  · exact (C2_add_overlap_rejection ⟨some 0, some 10, true, [⟨⟨0, 2⟩, 0⟩]⟩ ⟨⟨2, 4⟩, 1⟩
      (by decide) (by decide) (by decide) (by decide) (by decide)).2 (by decide)

/-- C3 (corrected): every error raised by `add` or `offset` occurs before any
mutation, leaving the whole list state exactly as it was; a failing `sort()`,
however, leaves `begin`, `end` and the sorted flag unchanged but leaves the
fragments stably sorted — which in general differs from the pre-call sequence,
refuting the claim's "in particular" clause for `sort`. -/
theorem C3_errors_before_mutation :
    (∀ (l : SyncMapFragmentList) (f : SyncMapFragment) (s : Bool),
        (add l f s).1.isSome = true → (add l f s).2 = l) ∧
    (∀ (l : SyncMapFragmentList) (d : PyTime),
        (offset l d).1.isSome = true → (offset l d).2 = l) ∧
    (∀ l : SyncMapFragmentList,
        (sort l).1.isSome = true →
          (sort l).2.begin = l.begin ∧ (sort l).2.end_ = l.end_ ∧
          (sort l).2.sorted = l.sorted ∧ (sort l).2.fragments = py_sorted l.fragments) := by
  refine ⟨?_, ?_, ?_⟩
  · intro l f s h
    cases hb : _check_boundaries l f with
    | some err => simp [add, hb]
    | none =>
      cases s with
      | false => simp [add, hb] at h
      | true =>
        cases hflag : l.sorted with
        | false => simp [add, hb, hflag]
        | true =>
          cases ho : _check_overlap l f with
          | some err => simp [add, hb, hflag, ho]
          | none => simp [add, hb, hflag, ho] at h
  · intro l d h
    cases d with
    | timeValue q => simp [offset] at h
    | pynone =>
      cases hf : l.fragments.isEmpty with
      | false => simp [offset, hf]
      | true => simp [offset, hf] at h
    | other =>
      cases hf : l.fragments.isEmpty with
      | false => simp [offset, hf]
      | true => simp [offset, hf] at h
  · intro l h
    cases hflag : l.sorted with
    | true => simp [sort, hflag] at h
    | false =>
      cases hp : pairs_allowed (py_sorted l.fragments) with
      | true => simp [sort, hflag, hp] at h
      | false => simp [sort, hflag, hp]

/-- C3 counterexample: on the unsorted-flagged list `[[1,3), [0,2)]`, `sort()`
raises the overlap `ValueError` but the fragments sequence after the failed
call differs from the sequence before it (it has been reordered), refuting the
claim that a failing call leaves the fragments exactly as they were. -/
theorem C3_counterexample :
    (sort ⟨some 0, none, false, [⟨⟨1, 3⟩, 0⟩, ⟨⟨0, 2⟩, 1⟩]⟩).1.isSome = true ∧
    (sort ⟨some 0, none, false, [⟨⟨1, 3⟩, 0⟩, ⟨⟨0, 2⟩, 1⟩]⟩).2.fragments ≠ [⟨⟨1, 3⟩, 0⟩, ⟨⟨0, 2⟩, 1⟩] := by
  decide

/-- C3 witness: the failing `sort()` on `[[1,3), [0,2)]` preserves `begin`,
`end` and the sorted flag, and leaves the fragments equal to the stably sorted
sequence. -/
theorem C3_witness :
    (sort ⟨some 0, none, false, [⟨⟨1, 3⟩, 0⟩, ⟨⟨0, 2⟩, 1⟩]⟩).2.begin = some 0 ∧
    (sort ⟨some 0, none, false, [⟨⟨1, 3⟩, 0⟩, ⟨⟨0, 2⟩, 1⟩]⟩).2.end_ = none ∧
    (sort ⟨some 0, none, false, [⟨⟨1, 3⟩, 0⟩, ⟨⟨0, 2⟩, 1⟩]⟩).2.sorted = false ∧
    (sort ⟨some 0, none, false, [⟨⟨1, 3⟩, 0⟩, ⟨⟨0, 2⟩, 1⟩]⟩).2.fragments =
      py_sorted [⟨⟨1, 3⟩, 0⟩, ⟨⟨0, 2⟩, 1⟩] := by
  have h := C3_errors_before_mutation.2.2 ⟨some 0, none, false, [⟨⟨1, 3⟩, 0⟩, ⟨⟨0, 2⟩, 1⟩]⟩ (by decide)
  exact ⟨h.1, h.2.1, h.2.2.1, h.2.2.2⟩

set_option maxHeartbeats 12000000 in
/-- C4 (confirmed): `fix_zero_length_intervals(0.001)` over the full index
range, on a list with `end = 2` and fragments `[0,0), [0,2)`, produces
`[0,0.001), [0.001,2)` (the donor `[0,2)` shrinks by `0.001`); on fragments
`[0,0), [0,0), [0,2)` it produces `[0,0.001), [0.001,0.002), [0.002,2)`. -/
theorem C4_fix_zero_length_examples :
    (fix_zero_length_intervals ⟨some 0, some 2, true, [⟨⟨0, 0⟩, 0⟩, ⟨⟨0, 2⟩, 1⟩]⟩ (1/1000) none none).fragments
      = [⟨⟨0, 1/1000⟩, 0⟩, ⟨⟨1/1000, 2⟩, 1⟩] ∧
    (fix_zero_length_intervals ⟨some 0, some 2, true, [⟨⟨0, 0⟩, 0⟩, ⟨⟨0, 0⟩, 1⟩, ⟨⟨0, 2⟩, 2⟩]⟩ (1/1000) none none).fragments
      = [⟨⟨0, 1/1000⟩, 0⟩, ⟨⟨1/1000, 1/500⟩, 1⟩, ⟨⟨1/500, 2⟩, 2⟩] := by
  constructor <;>
    norm_num [fix_zero_length_intervals, fix_loop, fix_scan, replay_moves, le_opt,
      TimeInterval.has_zero_length, TimeInterval.length, TimeInterval.shrink,
      TimeInterval.enlarge, TimeInterval.move_end_at]

/-- C5 (confirmed): on a list with both bounds set, `move_end(index, v)` is a
silent no-op whenever the value is outside the list bounds, the index pair is
out of range, the value exceeds the next fragment's end, or the two fragments
are not boundary-adjacent; otherwise it writes `v` into the current fragment's
interval end and the next fragment's interval begin, changing nothing else. -/
theorem C5_move_end_spec (l : SyncMapFragmentList) (b e : ℚ)
    (hb : l.begin = some b) (he : l.end_ = some e) (index : ℤ) (v : ℚ) :
    ((v < b ∨ e < v ∨ index < 0 ∨ (index + 1 : ℤ) ≥ (l.fragments.length : ℤ) ∨
        (l.fragments.getD (index.toNat + 1) default).interval.end_ < v ∨
        ¬ (l.fragments.getD index.toNat default).interval.is_adjacent_before (l.fragments.getD (index.toNat + 1) default).interval) →
      move_end l index v = l) ∧
    (b ≤ v → v ≤ e → 0 ≤ index → (index + 1 : ℤ) < (l.fragments.length : ℤ) →
      v ≤ (l.fragments.getD (index.toNat + 1) default).interval.end_ →
      (l.fragments.getD index.toNat default).interval.is_adjacent_before (l.fragments.getD (index.toNat + 1) default).interval →
      move_end l index v =
        { l with fragments := (l.fragments.set index.toNat ⟨⟨(l.fragments.getD index.toNat default).interval.begin, v⟩, (l.fragments.getD index.toNat default).payload⟩).set (index.toNat + 1) ⟨⟨v, (l.fragments.getD (index.toNat + 1) default).interval.end_⟩, (l.fragments.getD (index.toNat + 1) default).payload⟩ }) := by
  obtain ⟨lb, le', ls, lf⟩ := l
  dsimp only at hb he
  subst hb he
  dsimp only [move_end]
  constructor
  · intro hcase
    split_ifs with h1 h2
    · rfl
    · rfl
    · exfalso
      push_neg at h1 h2
      rcases hcase with h | h | h | h | h | h
      · linarith [h1.1]
      · linarith [h1.2.1]
      · omega
      · omega
      · linarith [h2.1]
      · exact h h2.2
  · intro hv1 hv2 hi1 hi2 hnext hadj
    split_ifs with h1 h2
    · exfalso
      rcases h1 with h | h | h | h
      · linarith
      · linarith
      · omega
      · omega
    · exfalso
      rcases h2 with h | h
      · linarith
      · exact h hadj
    · rfl

/-- C5 witness: on the list `[[0,2), [2,5)]` with bounds `[0, 10]`,
`move_end(0, 3)` moves the shared boundary to `3` on both sides. -/
theorem C5_witness :
    move_end ⟨some 0, some 10, true, [⟨⟨0, 2⟩, 0⟩, ⟨⟨2, 5⟩, 1⟩]⟩ 0 3 =
      ⟨some 0, some 10, true, [⟨⟨0, 3⟩, 0⟩, ⟨⟨3, 5⟩, 1⟩]⟩ := by
  have h := (C5_move_end_spec ⟨some 0, some 10, true, [⟨⟨0, 2⟩, 0⟩, ⟨⟨2, 5⟩, 1⟩]⟩ 0 10 rfl rfl 0 3).2
    (by decide) (by decide) (by decide) (by decide) (by decide) (by decide)
  exact h.trans (by decide)

/-- C6 (confirmed): construction succeeds (empty fragments, sorted flag set)
for `TimeValue` arguments with `0 ≤ begin ≤ end`; it raises `ValueError` for a
negative `begin` or for `begin > end`, and `TypeError` when `begin` or `end`
is set but not a `TimeValue`. -/
theorem C6_init_validation :
    (∀ q r : ℚ, 0 ≤ q → q ≤ r →
        init (PyTime.timeValue q) (PyTime.timeValue r) = Except.ok ⟨some q, some r, true, []⟩) ∧
    (∀ q r : ℚ, q < 0 →
        init (PyTime.timeValue q) (PyTime.timeValue r) = Except.error (PyError.valueError "begin is negative")) ∧
    (∀ q r : ℚ, 0 ≤ q → r < q →
        init (PyTime.timeValue q) (PyTime.timeValue r) = Except.error (PyError.valueError "begin is bigger than end")) ∧
    (∀ e : PyTime, init PyTime.other e = Except.error (PyError.typeError "begin is not an instance of TimeValue")) ∧
    (∀ q : ℚ, init (PyTime.timeValue q) PyTime.other = Except.error (PyError.typeError "end is not an instance of TimeValue")) ∧
    init PyTime.pynone PyTime.other = Except.error (PyError.typeError "end is not an instance of TimeValue") := by
  refine ⟨?_, ?_, ?_, ?_, ?_, ?_⟩
  · intro q r h1 h2
    simp [init, not_lt.mpr h1, not_lt.mpr h2]
  · intro q r h1
    simp [init, h1]
  · intro q r h1 h2
    simp [init, not_lt.mpr h1, h2]
  · intro e; cases e <;> rfl
  · intro q; rfl
  · rfl

/-- C6 witness: `init(0, 1)` succeeds with an empty sorted list; `init(-1, 1)`
and `init(2, 1)` raise `ValueError`; a non-`TimeValue` `begin` or `end` raises
`TypeError`. -/
theorem C6_witness :
    init (PyTime.timeValue 0) (PyTime.timeValue 1) = Except.ok ⟨some 0, some 1, true, []⟩ ∧
    init (PyTime.timeValue (-1)) (PyTime.timeValue 1) = Except.error (PyError.valueError "begin is negative") ∧
    init (PyTime.timeValue 2) (PyTime.timeValue 1) = Except.error (PyError.valueError "begin is bigger than end") ∧
    init PyTime.other (PyTime.timeValue 1) = Except.error (PyError.typeError "begin is not an instance of TimeValue") ∧
    init (PyTime.timeValue 0) PyTime.other = Except.error (PyError.typeError "end is not an instance of TimeValue") :=
  ⟨C6_init_validation.1 0 1 (by decide) (by decide),
   C6_init_validation.2.1 (-1) 1 (by decide),
   C6_init_validation.2.2.1 2 1 (by decide) (by decide),
   C6_init_validation.2.2.2.1 (PyTime.timeValue 1),
   C6_init_validation.2.2.2.2.1 0⟩

/-- C7 (corrected): for every fragment that passes the boundary check,
`add(f, sort=False)` appends `f` at the end and clears the sorted flag, with
no overlap check (it succeeds even when `f` overlaps existing fragments); but
for an out-of-bounds fragment the boundary check raises first and nothing is
appended, refuting the claim's "for every fragment" quantification. -/
theorem C7_add_unsorted_append (l : SyncMapFragmentList) (f : SyncMapFragment)
    (hok : _check_boundaries l f = none) :
    add l f false = (none, { l with fragments := l.fragments ++ [f], sorted := false }) := by
  simp [add, hok]

/-- C7 counterexample: appending the out-of-bounds fragment `[0,2)` to an
empty list with bounds `[0, 1]` via `add(f, sort=False)` raises `ValueError`
and leaves the list unchanged (nothing appended, flag still set), refuting the
claim that `add(f, sort=False)` always appends and always clears the flag. -/
theorem C7_counterexample :
    (add ⟨some 0, some 1, true, []⟩ ⟨⟨0, 2⟩, 0⟩ false).1.isSome = true ∧
    (add ⟨some 0, some 1, true, []⟩ ⟨⟨0, 2⟩, 0⟩ false).2 = ⟨some 0, some 1, true, []⟩ := by
  decide

/-- C7 witness: the in-bounds fragment `[1,3)`, although it overlaps the
existing `[0,2)`, is appended by `add(f, sort=False)` with the flag cleared —
no overlap check is performed. -/
theorem C7_witness :
    add ⟨some 0, some 10, true, [⟨⟨0, 2⟩, 0⟩]⟩ ⟨⟨1, 3⟩, 1⟩ false =
      (none, ⟨some 0, some 10, false, [⟨⟨0, 2⟩, 0⟩, ⟨⟨1, 3⟩, 1⟩]⟩) := by
  have h := C7_add_unsorted_append ⟨some 0, some 10, true, [⟨⟨0, 2⟩, 0⟩]⟩ ⟨⟨1, 3⟩, 1⟩ (by decide)
  exact h.trans (by decide)

/-- C8 (corrected): on a non-empty list, `offset(delta)` with a non-`TimeValue`
argument raises `TypeError` and leaves the list unchanged; on the empty list
the loop body never runs, so no `TypeError` is raised (see the
counterexample), refuting the claim's "including the empty list". -/
theorem C8_offset_type_error (l : SyncMapFragmentList) (d : PyTime)
    (hne : l.fragments ≠ []) (hd : d.isTimeValue = false) :
    offset l d = (some (PyError.typeError "offset is not an instance of TimeValue"), l) := by
  have hemp : l.fragments.isEmpty = false := by
    cases hf : l.fragments with
    | nil => exact absurd hf hne
    | cons a t => simp
  cases d with
  | timeValue q => simp [PyTime.isTimeValue] at hd
  | pynone => simp [offset, hemp]
  | other => simp [offset, hemp]

/-- C8 counterexample: on the empty list, `offset` applied to a value that is
not a `TimeValue` raises nothing, refuting the claim's quantification over
every list including the empty one. -/
theorem C8_counterexample :
    (offset ⟨some 0, none, true, []⟩ PyTime.other).1 = none := by
  decide

/-- C8 witness: on a one-fragment list, `offset` with a non-`TimeValue`
argument raises `TypeError` and mutates nothing. -/
theorem C8_witness :
    offset ⟨some 0, none, true, [⟨⟨0, 1⟩, 0⟩]⟩ PyTime.other =
      (some (PyError.typeError "offset is not an instance of TimeValue"), ⟨some 0, none, true, [⟨⟨0, 1⟩, 0⟩]⟩) :=
  C8_offset_type_error ⟨some 0, none, true, [⟨⟨0, 1⟩, 0⟩]⟩ PyTime.other (by decide) (by decide)

/-- C9 (confirmed): if a first `sort()` returns without error, an immediate
second `sort()` also returns without error and changes nothing, and
`is_guaranteed_sorted` reports `true` after both calls. -/
theorem C9_sort_idempotent (l : SyncMapFragmentList) (h : (sort l).1 = none) :
    (sort (sort l).2).1 = none ∧ (sort (sort l).2).2 = (sort l).2 ∧
    is_guaranteed_sorted (sort l).2 = true ∧
    is_guaranteed_sorted (sort (sort l).2).2 = true := by
  cases hflag : l.sorted with
  | true => simp [sort, hflag, is_guaranteed_sorted]
  | false =>
    cases hp : pairs_allowed (py_sorted l.fragments) with
    | false => simp [sort, hflag, hp] at h
    | true => simp [sort, hflag, hp, is_guaranteed_sorted]

/-- C9 witness: sorting the unsorted-flagged list `[[2,3), [0,1)]` succeeds;
sorting again succeeds, changes nothing, and the flag reads `true` both
times. -/
theorem C9_witness :
    (sort (sort ⟨some 0, none, false, [⟨⟨2, 3⟩, 0⟩, ⟨⟨0, 1⟩, 1⟩]⟩).2).1 = none ∧
    (sort (sort ⟨some 0, none, false, [⟨⟨2, 3⟩, 0⟩, ⟨⟨0, 1⟩, 1⟩]⟩).2).2 =
      (sort ⟨some 0, none, false, [⟨⟨2, 3⟩, 0⟩, ⟨⟨0, 1⟩, 1⟩]⟩).2 ∧
    is_guaranteed_sorted (sort ⟨some 0, none, false, [⟨⟨2, 3⟩, 0⟩, ⟨⟨0, 1⟩, 1⟩]⟩).2 = true ∧
    is_guaranteed_sorted (sort (sort ⟨some 0, none, false, [⟨⟨2, 3⟩, 0⟩, ⟨⟨0, 1⟩, 1⟩]⟩).2).2 = true :=
  C9_sort_idempotent ⟨some 0, none, false, [⟨⟨2, 3⟩, 0⟩, ⟨⟨0, 1⟩, 1⟩]⟩ (by decide)

/-- C10 (confirmed): because `fix_zero_length_intervals` resolves its index
arguments with Python's `or`, an explicit `max_index = 0` on a non-empty list
does not denote the empty range: it behaves exactly like `max_index = len` and
like the `None` default (the whole list is scanned), and an explicit
`min_index = 0` behaves exactly like the default. -/
theorem C10_fix_falsy_index_args (l : SyncMapFragmentList) (off : ℚ)
    (mi mx : Option ℕ) (hne : l.fragments ≠ []) :
    fix_zero_length_intervals l off mi (some 0) = fix_zero_length_intervals l off mi none ∧
    fix_zero_length_intervals l off mi (some 0) =
      fix_zero_length_intervals l off mi (some l.fragments.length) ∧
    fix_zero_length_intervals l off (some 0) mx = fix_zero_length_intervals l off none mx := by
  refine ⟨rfl, ?_, rfl⟩
  by_cases h0 : l.fragments.length = 0
  · exact absurd (List.length_eq_zero.mp h0) hne
  · simp [fix_zero_length_intervals, h0]

/-- C10 witness: on the two-fragment list of the C4 example, calling with an
explicit `max_index = 0` coincides with the default and with
`max_index = 2`. -/
theorem C10_witness :
    fix_zero_length_intervals ⟨some 0, some 2, true, [⟨⟨0, 0⟩, 0⟩, ⟨⟨0, 2⟩, 1⟩]⟩ (1/1000) none (some 0) =
      fix_zero_length_intervals ⟨some 0, some 2, true, [⟨⟨0, 0⟩, 0⟩, ⟨⟨0, 2⟩, 1⟩]⟩ (1/1000) none none ∧
    fix_zero_length_intervals ⟨some 0, some 2, true, [⟨⟨0, 0⟩, 0⟩, ⟨⟨0, 2⟩, 1⟩]⟩ (1/1000) none (some 0) =
      fix_zero_length_intervals ⟨some 0, some 2, true, [⟨⟨0, 0⟩, 0⟩, ⟨⟨0, 2⟩, 1⟩]⟩ (1/1000) none (some 2) ∧
    fix_zero_length_intervals ⟨some 0, some 2, true, [⟨⟨0, 0⟩, 0⟩, ⟨⟨0, 2⟩, 1⟩]⟩ (1/1000) (some 0) none =
      fix_zero_length_intervals ⟨some 0, some 2, true, [⟨⟨0, 0⟩, 0⟩, ⟨⟨0, 2⟩, 1⟩]⟩ (1/1000) none none :=
  C10_fix_falsy_index_args ⟨some 0, some 2, true, [⟨⟨0, 0⟩, 0⟩, ⟨⟨0, 2⟩, 1⟩]⟩ (1/1000) none none (by decide)
